import Mathlib

set_option maxHeartbeats 1000000

/-!
Verification of the OI monitoring bot: a shallow embedding of
`analyzer_bot.py` (the change detector) and `oi_collect.py` (the collector)
over an explicit list-of-rows model of the `oi_data` table.
-/

/-- A row of the `oi_data` table, as created by `setup_database` in
`oi_collect.py`: serial `id`, store-assigned `scan_time`, token symbol and
name, and the float metric (modelled as a rational). -/
structure Row where
  id : Nat
  scan_time : Nat
  token_symbol : String
  token_name : String
  oi_growth_4h : ℚ
deriving DecidableEq, Repr

/-- The rows of the store belonging to one token
(`WHERE token_symbol = %s`). -/
def tokenRows (db : List Row) (t : String) : List Row :=
  db.filter (fun r => r.token_symbol = t)

/-- `get_tokens_to_process`: the SQL
`SELECT token_symbol FROM oi_data GROUP BY token_symbol HAVING COUNT(*) = 2`
— the distinct symbols present in the store holding exactly two rows. -/
def get_tokens_to_process (db : List Row) : List String :=
  ((db.map (fun r => r.token_symbol)).dedup).filter
    (fun t => (tokenRows db t).length = 2)

/-- The `ORDER BY scan_time DESC` comparison: `a` comes before `b` when
`a.scan_time ≥ b.scan_time`. -/
def scanDesc : Row → Row → Prop :=
  fun a b => b.scan_time ≤ a.scan_time

instance : DecidableRel scanDesc :=
  fun a b => Nat.decLe b.scan_time a.scan_time

instance : IsTotal Row scanDesc :=
  ⟨fun a b => Nat.le_total b.scan_time a.scan_time⟩

instance : IsTrans Row scanDesc :=
  ⟨fun _ _ _ hab hbc => Nat.le_trans hbc hab⟩

/-- `get_latest_records`: the query
`SELECT ... WHERE token_symbol = %s ORDER BY scan_time DESC LIMIT 2`
followed by the `len(records) == 2` guard: the two newest rows of the
token, newest first (`records[0] = current, records[1] = previous`), or
`None, None` when fewer than two exist. -/
def get_latest_records (db : List Row) (t : String) : Option (Row × Row) :=
  match List.insertionSort scanDesc (tokenRows db t) with
  | c :: p :: _ => some (c, p)
  | _ => none

/-- `cleanup_old_records`: `DELETE FROM oi_data WHERE id = %s AND
token_symbol = %s`, committed when the statement succeeds (`ok = true`); on
an exception the transaction is rolled back, leaving the store unchanged. -/
def cleanup_old_records (ok : Bool) (db : List Row)
    (previous_record_id : Nat) (t : String) : List Row :=
  if ok then
    db.filter (fun r => ¬ (r.id = previous_record_id ∧ r.token_symbol = t))
  else db

/-- The payload of a Telegram alert message built in the main loop:
token symbol, display name, current and previous growth, and the delta. -/
structure Alert where
  token : String
  token_name : String
  current_oi : ℚ
  prev_oi : ℚ
  delta : ℚ
deriving DecidableEq, Repr

/-- The alert gate of the main loop: `oi_delta = current_oi - prev_oi`;
the message is built and dispatched iff `oi_delta >= OI_DELTA_THRESHOLD`. -/
def alert_decision (threshold : ℚ) (t : String) (cur prev : Row) :
    Option Alert :=
  let oi_delta := cur.oi_growth_4h - prev.oi_growth_4h
  if oi_delta ≥ threshold then
    some ⟨t, cur.token_name, cur.oi_growth_4h, prev.oi_growth_4h, oi_delta⟩
  else none

/-- One iteration of the detection loop for one candidate token: fetch the
latest pair; when a pair exists, decide the alert and delete the previous
row; when not (`if current_record and previous_record` fails), do nothing. -/
def process_token (threshold : ℚ) (db : List Row) (t : String) :
    Option Alert × List Row :=
  match get_latest_records db t with
  | none => (none, db)
  | some (cur, prev) =>
    (alert_decision threshold t cur prev, cleanup_old_records true db prev.id t)

/-- One iteration of the detection loop with the Telegram dispatch outcome
made explicit: when the alert fires, `send_telegram_alert` is run and its
success or failure (`dispatch_ok`) is caught and logged inside that
function; the deletion step then runs unconditionally. The first component
records the attempted dispatch outcome, the second the resulting store. -/
def process_token_dispatch (threshold : ℚ) (dispatch_ok : Bool)
    (db : List Row) (t : String) : Option Bool × List Row :=
  match get_latest_records db t with
  | none => (none, db)
  | some (cur, prev) =>
    ((alert_decision threshold t cur prev).map (fun _ => dispatch_ok),
     cleanup_old_records true db prev.id t)

/-- One full detection cycle: the `for token in tokens_to_process` loop,
threading the store through each iteration and collecting fired alerts. -/
def run_cycle (threshold : ℚ) (db : List Row) : List Alert × List Row :=
  (get_tokens_to_process db).foldl
    (fun acc t =>
      let r := process_token threshold acc.2 t
      (acc.1 ++ r.1.toList, r.2))
    ([], db)

/-- The part of the Coinglass aggregated-history reply that
`get_oi_growth_from_coinglass` reads: the response `code` and the list of
`close` values, earliest first and latest last. -/
structure CGResponse where
  code : String
  closes : List ℚ
deriving DecidableEq, Repr

/-- `get_oi_growth_from_coinglass`: on a code-`"0"` reply carrying exactly
two points, `oi_today` is the last close and `oi_4h_ago` the first; the
growth percentage `((oi_today - oi_4h_ago) / oi_4h_ago) * 100` is returned
only when `oi_4h_ago > 0`; every other case, a raised exception
(`resp = none`) included, yields `None`. -/
def get_oi_growth_from_coinglass (resp : Option CGResponse) : Option ℚ :=
  match resp with
  | none => none
  | some r =>
    if r.code = "0" ∧ r.closes.length = 2 then
      match r.closes with
      | [oi_4h_ago, oi_today] =>
        if oi_4h_ago > 0 then
          some (((oi_today - oi_4h_ago) / oi_4h_ago) * 100)
        else none
      | _ => none
    else none

/-- One entry of the CoinMarketCap listings reply read by
`get_top_symbols`. -/
structure CMCItem where
  symbol : String
  name : String
deriving DecidableEq, Repr

/-- The stablecoin denylist of `get_top_symbols`. -/
def stablecoins : List String :=
  ["USDT", "USDC", "DAI", "BUSD", "TUSD", "USDP"]

/-- Python `s.startswith(p)`: `p` is a prefix of the character sequence of
`s`. -/
def strStartsWith (s p : String) : Bool :=
  p.data.isPrefixOf s.data

/-- The universe filter inside `get_top_symbols`: keep an item iff its
symbol is not a listed stablecoin and does not start with `W`
(`item['symbol'] not in stablecoins and not item['symbol'].startswith('W')`). -/
def get_top_symbols (items : List CMCItem) : List CMCItem :=
  items.filter
    (fun it => ¬ it.symbol ∈ stablecoins ∧ ¬ strStartsWith it.symbol "W")

/-- A record as inserted by `insert_oi_data`
(`INSERT INTO oi_data (token_symbol, token_name, oi_growth_4h)`). -/
structure ObsInsert where
  symbol : String
  name : String
  oi_growth : ℚ
deriving DecidableEq, Repr

/-- The collector scan loop: for each symbol surviving the universe filter,
fetch the growth value and append a record to the batch exactly when the
value is not `None`; every batched record is eventually inserted. -/
def scan_loop (items : List CMCItem) (fetch : String → Option CGResponse) :
    List ObsInsert :=
  (get_top_symbols items).filterMap
    (fun it => (get_oi_growth_from_coinglass (fetch it.symbol)).map
      (fun g => ⟨it.symbol, it.name, g⟩))

/-- Three observations for one token, as left by three collector cycles
whose trigger the analyzer missed. -/
def exDb3 : List Row :=
  [⟨1, 100, "AAA", "Alpha", 1⟩, ⟨2, 200, "AAA", "Alpha", 2⟩,
   ⟨3, 300, "AAA", "Alpha", 3⟩]

/-- Exactly two observations for one token: the normal candidate state. -/
def exDb2 : List Row :=
  [⟨1, 100, "BBB", "Beta", 3⟩, ⟨2, 200, "BBB", "Beta", 15⟩]

example : get_tokens_to_process exDb3 = [] := by decide
example : get_tokens_to_process exDb2 = ["BBB"] := by decide
example : get_latest_records exDb2 "BBB" =
    some (⟨2, 200, "BBB", "Beta", 15⟩, ⟨1, 100, "BBB", "Beta", 3⟩) := by
  decide

/-! ### Helper lemmas about the store model -/

theorem mem_tokenRows {db : List Row} {t : String} {r : Row} :
    r ∈ tokenRows db t ↔ r ∈ db ∧ r.token_symbol = t := by
  simp [tokenRows]

theorem tokens_to_process_iff (db : List Row) (t : String) :
    t ∈ get_tokens_to_process db ↔ (tokenRows db t).length = 2 := by
  unfold get_tokens_to_process
  simp only [List.mem_filter, List.mem_dedup, List.mem_map, decide_eq_true_eq]
  constructor
  · rintro ⟨-, h⟩
    exact h
  · intro h
    refine ⟨?_, h⟩
    have hne : tokenRows db t ≠ [] := by
      intro hnil
      rw [hnil] at h
      simp at h
    obtain ⟨r, hr⟩ := List.exists_mem_of_ne_nil _ hne
    obtain ⟨hrdb, hrt⟩ := mem_tokenRows.mp hr
    exact ⟨r, hrdb, hrt⟩

theorem latest_none_of_short {db : List Row} {t : String}
    (h : (tokenRows db t).length < 2) : get_latest_records db t = none := by
  have hlen : (List.insertionSort scanDesc (tokenRows db t)).length < 2 := by
    rw [List.length_insertionSort]
    exact h
  unfold get_latest_records
  split
  · rename_i c p rest heq
    rw [heq] at hlen
    simp at hlen
    omega
  · rfl

theorem latest_some_elim {db : List Row} {t : String} {c p : Row}
    (h : get_latest_records db t = some (c, p)) :
    ∃ rest, List.insertionSort scanDesc (tokenRows db t) = c :: p :: rest := by
  unfold get_latest_records at h
  split at h
  · rename_i c0 p0 rest heq
    obtain ⟨rfl, rfl⟩ : c0 = c ∧ p0 = p := by
      simpa using h
    exact ⟨rest, heq⟩
  · exact absurd h (by simp)

theorem latest_of_length_two {db : List Row} {t : String}
    (h : (tokenRows db t).length = 2) :
    ∃ c p, get_latest_records db t = some (c, p) ∧
      (tokenRows db t).Perm [c, p] := by
  have hlen : (List.insertionSort scanDesc (tokenRows db t)).length = 2 := by
    rw [List.length_insertionSort]
    exact h
  obtain ⟨c, p, hs⟩ := List.length_eq_two.mp hlen
  refine ⟨c, p, ?_, ?_⟩
  · unfold get_latest_records
    rw [hs]
  · have hperm : (List.insertionSort scanDesc (tokenRows db t)).Perm
        (tokenRows db t) := List.perm_insertionSort scanDesc _
    rw [hs] at hperm
    exact hperm.symm

theorem process_token_of_latest {threshold : ℚ} {db : List Row} {t : String}
    {cur prev : Row} (h : get_latest_records db t = some (cur, prev)) :
    process_token threshold db t =
      (alert_decision threshold t cur prev,
       cleanup_old_records true db prev.id t) := by
  unfold process_token
  rw [h]

theorem process_token_of_none {threshold : ℚ} {db : List Row} {t : String}
    (h : get_latest_records db t = none) :
    process_token threshold db t = (none, db) := by
  unfold process_token
  rw [h]

/-! ### C1: candidate enumeration -/

/-- C1 counterexample: with three unconsumed rows for token `AAA` the store
holds at least two observations, yet `get_tokens_to_process` does not
return `AAA` — the `HAVING COUNT(*) = 2` filter requires exactly two. -/
theorem candidate_enumeration_counterexample :
    2 ≤ (tokenRows exDb3 "AAA").length ∧
      "AAA" ∉ get_tokens_to_process exDb3 := by
  decide

/-- C1 (amended): the candidate enumeration returns a token iff the store
holds exactly two rows for it, not iff it holds at least two. -/
theorem candidate_iff_exactly_two (db : List Row) (t : String) :
    t ∈ get_tokens_to_process db ↔ (tokenRows db t).length = 2 :=
  tokens_to_process_iff db t

/-! ### C6: fewer than two rows means silent skip -/

/-- C6: when a token holds fewer than two rows, `get_latest_records`
returns no pair and the loop body neither alerts nor deletes: the store is
returned unchanged. -/
theorem short_token_skipped (threshold : ℚ) (db : List Row) (t : String)
    (h : (tokenRows db t).length < 2) :
    get_latest_records db t = none ∧ process_token threshold db t = (none, db) := by
  have hn := latest_none_of_short h
  exact ⟨hn, process_token_of_none hn⟩

/-- C6 witness: a store holding one `DDD` row is skipped. -/
theorem short_token_skipped_witness :
    get_latest_records [⟨7, 500, "DDD", "Delta", 4⟩] "DDD" = none ∧
      process_token 10 [⟨7, 500, "DDD", "Delta", 4⟩] "DDD" =
        (none, [⟨7, 500, "DDD", "Delta", 4⟩]) :=
  short_token_skipped 10 [⟨7, 500, "DDD", "Delta", 4⟩] "DDD" (by decide)

/-! ### C7: idempotence after a successful cycle -/

/-- C7: a token left with exactly one retained row by a successful cycle is
absent from the next cycle's candidate set, and processing it again fires
no alert and performs no deletion. -/
theorem second_cycle_no_side_effects (threshold : ℚ) (db : List Row)
    (t : String) (h : (tokenRows db t).length = 1) :
    t ∉ get_tokens_to_process db ∧ process_token threshold db t = (none, db) := by
  constructor
  · intro hmem
    rw [tokens_to_process_iff] at hmem
    omega
  · exact process_token_of_none (latest_none_of_short (by omega))

/-- C7 witness: the one-row store left after processing `exDb2`. -/
theorem second_cycle_no_side_effects_witness :
    "BBB" ∉ get_tokens_to_process [⟨2, 200, "BBB", "Beta", 15⟩] ∧
      process_token 10 [⟨2, 200, "BBB", "Beta", 15⟩] "BBB" =
        (none, [⟨2, 200, "BBB", "Beta", 15⟩]) :=
  second_cycle_no_side_effects 10 [⟨2, 200, "BBB", "Beta", 15⟩] "BBB" (by decide)

/-! ### C3: the alert gate is inclusive -/

/-- A pair whose delta is exactly the threshold 10: previous 2, current 12. -/
def exDbBoundary : List Row :=
  [⟨1, 100, "CCC", "Gamma", 2⟩, ⟨2, 200, "CCC", "Gamma", 12⟩]

/-- C3: for an evaluated pair the alert is produced iff
`current.oi_growth_4h - previous.oi_growth_4h >= threshold`; in particular
a delta exactly equal to the threshold fires. -/
theorem alert_iff_delta_ge_threshold (threshold : ℚ) (db : List Row)
    (t : String) (cur prev : Row)
    (h : get_latest_records db t = some (cur, prev)) :
    ((process_token threshold db t).1.isSome ↔
      threshold ≤ cur.oi_growth_4h - prev.oi_growth_4h) ∧
    (cur.oi_growth_4h - prev.oi_growth_4h = threshold →
      (process_token threshold db t).1.isSome) := by
  rw [process_token_of_latest h]
  constructor
  · simp only [alert_decision]
    split
    · rename_i hge
      simpa using hge
    · rename_i hlt
      simpa using hlt
  · intro he
    simp [alert_decision, he]

/-- C3 witness: at the boundary store the delta is exactly the threshold
and the alert fires. -/
theorem alert_iff_delta_ge_threshold_witness :
    (process_token 10 exDbBoundary "CCC").1.isSome :=
  (alert_iff_delta_ge_threshold 10 exDbBoundary "CCC"
      ⟨2, 200, "CCC", "Gamma", 12⟩ ⟨1, 100, "CCC", "Gamma", 2⟩
      (by decide)).2 (by norm_num)

/-! ### C4: dispatch failure never blocks pruning -/

/-- C4: for an evaluated pair the resulting store is the one produced by
the deletion step, whatever the dispatch outcome, and it coincides with the
store produced when dispatch succeeds: a failed Telegram send is swallowed
and never blocks or aborts the deletion. -/
theorem pruning_independent_of_dispatch (threshold : ℚ) (db : List Row)
    (t : String) (cur prev : Row) (ok : Bool)
    (h : get_latest_records db t = some (cur, prev)) :
    (process_token_dispatch threshold ok db t).2 =
      cleanup_old_records true db prev.id t ∧
    (process_token_dispatch threshold ok db t).2 =
      (process_token_dispatch threshold true db t).2 := by
  unfold process_token_dispatch
  rw [h]
  exact ⟨rfl, rfl⟩

/-- C4 witness: on the two-row store, a failed dispatch still yields the
pruned store. -/
theorem pruning_independent_of_dispatch_witness :
    (process_token_dispatch 10 false exDb2 "BBB").2 =
      cleanup_old_records true exDb2 1 "BBB" :=
  (pruning_independent_of_dispatch 10 exDb2 "BBB"
      ⟨2, 200, "BBB", "Beta", 15⟩ ⟨1, 100, "BBB", "Beta", 3⟩ false
      (by decide)).1

/-! ### C5: the pair is ordered by the observation timestamp -/

/-- C5: whenever a pair is returned, both rows belong to the token,
`current` carries the strictly greatest `scan_time`, and every other row of
the token is no newer than `previous`: the ordering is derived from the
timestamp column alone. The hypothesis that timestamps are pairwise
distinct within the token reflects the `UNIQUE(token_symbol, scan_time)`
constraint of the schema. -/
theorem pair_ordered_by_scan_time (db : List Row) (t : String) (c p : Row)
    (hdist : (tokenRows db t).Pairwise (fun a b => a.scan_time ≠ b.scan_time))
    (h : get_latest_records db t = some (c, p)) :
    c ∈ tokenRows db t ∧ p ∈ tokenRows db t ∧ p.scan_time < c.scan_time ∧
      ∀ r ∈ tokenRows db t, r ≠ c → r.scan_time ≤ p.scan_time := by
  obtain ⟨rest, hs⟩ := latest_some_elim h
  have hperm : (List.insertionSort scanDesc (tokenRows db t)).Perm
      (tokenRows db t) := List.perm_insertionSort scanDesc _
  rw [hs] at hperm
  have hsorted : List.Sorted scanDesc
      (List.insertionSort scanDesc (tokenRows db t)) :=
    List.sorted_insertionSort scanDesc _
  rw [hs] at hsorted
  obtain ⟨hc, hsorted2⟩ := List.sorted_cons.mp hsorted
  obtain ⟨hp, -⟩ := List.sorted_cons.mp hsorted2
  have hcmem : c ∈ tokenRows db t := hperm.mem_iff.mp (by simp)
  have hpmem : p ∈ tokenRows db t := hperm.mem_iff.mp (by simp)
  have hdist2 : (c :: p :: rest).Pairwise
      (fun a b => a.scan_time ≠ b.scan_time) :=
    (List.Perm.pairwise_iff (fun hxy e => hxy e.symm) hperm).mpr hdist
  have hcp : p.scan_time ≤ c.scan_time := hc p (by simp)
  have hne : c.scan_time ≠ p.scan_time :=
    (List.pairwise_cons.mp hdist2).1 p (by simp)
  refine ⟨hcmem, hpmem, lt_of_le_of_ne hcp (fun e => hne e.symm), ?_⟩
  intro r hr hrc
  have hrmem : r ∈ c :: p :: rest := hperm.symm.mem_iff.mp hr
  rcases List.mem_cons.mp hrmem with h1 | hrest
  · exact absurd h1 hrc
  rcases List.mem_cons.mp hrest with h2 | h3
  · exact h2 ▸ le_refl _
  · exact hp r h3

/-- C5 witness: on the two-row store the newest row is `current`. -/
theorem pair_ordered_by_scan_time_witness :
    (⟨2, 200, "BBB", "Beta", 15⟩ : Row) ∈ tokenRows exDb2 "BBB" ∧
      (⟨1, 100, "BBB", "Beta", 3⟩ : Row) ∈ tokenRows exDb2 "BBB" ∧
      (100 : Nat) < 200 ∧
      ∀ r ∈ tokenRows exDb2 "BBB", r ≠ ⟨2, 200, "BBB", "Beta", 15⟩ →
        r.scan_time ≤ 100 :=
  pair_ordered_by_scan_time exDb2 "BBB"
    ⟨2, 200, "BBB", "Beta", 15⟩ ⟨1, 100, "BBB", "Beta", 3⟩
    (by decide) (by decide)

/-! ### C2: stragglers and the deletion step -/

theorem tokenRows_cleanup (db : List Row) (i : Nat) (t : String) :
    tokenRows (cleanup_old_records true db i t) t =
      (tokenRows db t).filter
        (fun r => ¬ (r.id = i ∧ r.token_symbol = t)) := by
  simp only [tokenRows, cleanup_old_records, if_true, List.filter_filter]
  exact List.filter_congr (fun a _ => by
    simp only [Bool.and_comm])

theorem tokenRows_ids_nodup {db : List Row} {t : String}
    (hids : (db.map (fun r => r.id)).Nodup) :
    ((tokenRows db t).map (fun r => r.id)).Nodup :=
  List.Nodup.sublist (List.Sublist.map _ (List.filter_sublist db)) hids

/-- C2 counterexample: token `AAA` holds three unconsumed observations, yet
a whole detection cycle leaves the store untouched — the token is never
identified, no delta is computed, and deletion retains three rows, not
exactly one. -/
theorem no_self_healing_counterexample :
    (tokenRows exDb3 "AAA").length = 3 ∧
      run_cycle 10 exDb3 = ([], exDb3) ∧
      (tokenRows (run_cycle 10 exDb3).2 "AAA").length ≠ 1 := by
  decide

/-- C2 (amended): a token with three or more unconsumed observations is
never enumerated (the `HAVING COUNT(*) = 2` filter requires exactly two),
so the cycle performs no evaluation and no deletion for it; only a token
holding exactly two rows is processed, and for it the deletion step leaves
exactly one retained row. -/
theorem stragglers_unprocessed_exactly_two_collapses (threshold : ℚ)
    (db : List Row) (t : String) :
    (3 ≤ (tokenRows db t).length → t ∉ get_tokens_to_process db) ∧
    ((tokenRows db t).length = 2 → (db.map (fun r => r.id)).Nodup →
      (tokenRows (process_token threshold db t).2 t).length = 1) := by
  constructor
  · intro h3 hmem
    rw [tokens_to_process_iff] at hmem
    omega
  · intro h2 hids
    obtain ⟨c, p, hl, hperm⟩ := latest_of_length_two h2
    have hproc : (process_token threshold db t).2 =
        cleanup_old_records true db p.id t := by
      rw [process_token_of_latest hl]
    rw [hproc, tokenRows_cleanup]
    have hfil : ((tokenRows db t).filter
        (fun r => ¬ (r.id = p.id ∧ r.token_symbol = t))).Perm
        (([c, p] : List Row).filter
          (fun r => ¬ (r.id = p.id ∧ r.token_symbol = t))) :=
      List.Perm.filter _ hperm
    rw [hfil.length_eq]
    have hidnd : ([c.id, p.id] : List Nat).Nodup := by
      have h1 := tokenRows_ids_nodup (t := t) hids
      have h2p : ((tokenRows db t).map (fun r => r.id)).Perm [c.id, p.id] := by
        simpa using List.Perm.map (fun r => r.id) hperm
      exact h2p.nodup_iff.mp h1
    have hcid : c.id ≠ p.id := by
      simpa using hidnd
    have hpt : p.token_symbol = t :=
      (mem_tokenRows.mp (hperm.symm.mem_iff.mp (by simp))).2
    simp [List.filter, hcid, hpt]

/-- C2 amended-claim witness: the three-row store is not selected, and the
two-row store collapses to one retained row. -/
theorem stragglers_unprocessed_witness :
    "AAA" ∉ get_tokens_to_process exDb3 ∧
      (tokenRows (process_token 10 exDb2 "BBB").2 "BBB").length = 1 :=
  ⟨(stragglers_unprocessed_exactly_two_collapses 10 exDb3 "AAA").1 (by decide),
   (stragglers_unprocessed_exactly_two_collapses 10 exDb2 "BBB").2
     (by decide) (by decide)⟩

/-! ### C9: the deletion step is a one-row frame operation -/

theorem filter_keeps_all_of_fresh_id {i : Nat} {t : String} {db : List Row}
    (h : ∀ r ∈ db, r.id ≠ i) :
    db.filter (fun r => ¬ (r.id = i ∧ r.token_symbol = t)) = db :=
  List.filter_eq_self.mpr (fun r hr => by simp [h r hr])

theorem length_le_cleanup_add_one {i : Nat} {t : String} (db : List Row)
    (hids : (db.map (fun r => r.id)).Nodup) :
    db.length ≤
      (db.filter (fun r => ¬ (r.id = i ∧ r.token_symbol = t))).length + 1 := by
  induction db with
  | nil => simp
  | cons r db ih =>
    rw [List.map_cons, List.nodup_cons] at hids
    obtain ⟨hfresh, htl⟩ := hids
    by_cases hq : r.id = i ∧ r.token_symbol = t
    · have hall : ∀ x ∈ db, x.id ≠ i := by
        intro x hx he
        have hm : x.id ∈ List.map (fun r => r.id) db :=
          List.mem_map_of_mem (fun r => r.id) hx
        rw [he, ← hq.1] at hm
        exact hfresh hm
      rw [List.filter_cons_of_neg (by simpa using hq),
        filter_keeps_all_of_fresh_id hall]
      simp
    · rw [List.filter_cons_of_pos (by simp only [decide_eq_true_eq]; exact hq)]
      have := ih htl
      simp only [List.length_cons]
      omega

/-- C9: on success the deletion keeps a sublist of the store from which
only rows with the consumed previous id and the given token can be missing;
rows with another id (the current row included) and rows of other tokens
are all kept; under unique ids at most one row is removed; and on failure
the rollback leaves the store unchanged. -/
theorem cleanup_removes_at_most_previous_row (db : List Row) (i : Nat)
    (t : String) (hids : (db.map (fun r => r.id)).Nodup) :
    (∀ r ∈ cleanup_old_records true db i t, r ∈ db) ∧
    (∀ r ∈ db, r ∉ cleanup_old_records true db i t →
      r.id = i ∧ r.token_symbol = t) ∧
    (∀ r ∈ db, r.id ≠ i → r ∈ cleanup_old_records true db i t) ∧
    (∀ r ∈ db, r.token_symbol ≠ t → r ∈ cleanup_old_records true db i t) ∧
    db.length ≤ (cleanup_old_records true db i t).length + 1 ∧
    cleanup_old_records false db i t = db := by
  refine ⟨?_, ?_, ?_, ?_, ?_, rfl⟩
  · intro r hr
    exact (List.mem_filter.mp hr).1
  · intro r hr hnot
    by_contra hq
    exact hnot (List.mem_filter.mpr
      ⟨hr, by simp only [decide_eq_true_eq]; exact hq⟩)
  · intro r hr hne
    exact List.mem_filter.mpr ⟨hr, by simp [hne]⟩
  · intro r hr hne
    exact List.mem_filter.mpr ⟨hr, by simp [hne]⟩
  · exact length_le_cleanup_add_one db hids

/-- C9 witness: deleting previous id 1 from the two-row store removes one
row, keeps the current row, and a failed delete changes nothing. -/
theorem cleanup_removes_at_most_previous_row_witness :
    exDb2.length ≤ (cleanup_old_records true exDb2 1 "BBB").length + 1 ∧
      cleanup_old_records false exDb2 1 "BBB" = exDb2 :=
  ⟨(cleanup_removes_at_most_previous_row exDb2 1 "BBB" (by decide)).2.2.2.2.1,
   (cleanup_removes_at_most_previous_row exDb2 1 "BBB" (by decide)).2.2.2.2.2⟩

/-! ### C8: the collector's growth formula and its guard -/

/-- C8: the collector produces a metric value iff the fetch succeeded with
a code-`"0"` reply carrying exactly two series points whose earliest value
is positive, and the value is then `((latest - earliest) / earliest) * 100`;
in every other case (fetch failure, wrong code, fewer or more than two
points, or `earliest <= 0`) no value — hence no observation — is produced. -/
theorem collector_growth_formula (resp : Option CGResponse) (g : ℚ) :
    get_oi_growth_from_coinglass resp = some g ↔
      ∃ r earliest latest, resp = some r ∧ r.code = "0" ∧
        r.closes = [earliest, latest] ∧ 0 < earliest ∧
        g = ((latest - earliest) / earliest) * 100 := by
  cases resp with
  | none => simp [get_oi_growth_from_coinglass]
  | some r =>
    rcases hc : r.closes with - | ⟨a, - | ⟨b, - | ⟨x, tl⟩⟩⟩
    · simp [get_oi_growth_from_coinglass, hc]
    · simp [get_oi_growth_from_coinglass, hc]
    · by_cases hcode : r.code = "0"
      · by_cases ha : (0 : ℚ) < a
        · have hval : get_oi_growth_from_coinglass (some r) =
              some (((b - a) / a) * 100) := by
            simp [get_oi_growth_from_coinglass, hc, hcode, ha]
          rw [hval]
          constructor
          · intro hg
            exact ⟨r, a, b, rfl, hcode, hc, ha, (Option.some.inj hg).symm⟩
          · rintro ⟨r2, e, l, hr2, -, hcl, -, hgel⟩
            obtain rfl : r2 = r := by
              injection hr2 with h
              exact h.symm
            rw [hc] at hcl
            obtain ⟨rfl, rfl⟩ : a = e ∧ b = l := by
              simpa using hcl
            rw [hgel]
        · simp [get_oi_growth_from_coinglass, hc, hcode, ha, gt_iff_lt]
      · simp [get_oi_growth_from_coinglass, hc, hcode]
    · simp [get_oi_growth_from_coinglass, hc]

/-! ### C10: the universe filter drops every W-prefixed symbol -/

/-- C10: an item of the universe reply whose symbol starts with `W` never
survives `get_top_symbols`, and consequently no record inserted by the scan
loop carries a symbol starting with `W`. -/
theorem w_symbols_never_stored (items : List CMCItem)
    (fetch : String → Option CGResponse) (it : CMCItem) (o : ObsInsert)
    (_hit : it ∈ items) (hw : strStartsWith it.symbol "W" = true) :
    it ∉ get_top_symbols items ∧
      (o ∈ scan_loop items fetch → strStartsWith o.symbol "W" = false) := by
  constructor
  · intro hmem
    have hkeep := (List.mem_filter.mp hmem).2
    simp only [decide_eq_true_eq] at hkeep
    exact hkeep.2 hw
  · intro ho
    obtain ⟨it2, hit2, hmap⟩ := List.mem_filterMap.mp ho
    obtain ⟨g, -, hgo⟩ := Option.map_eq_some'.mp hmap
    have hkeep := (List.mem_filter.mp hit2).2
    simp only [decide_eq_true_eq] at hkeep
    have hsym : o.symbol = it2.symbol := by
      rw [← hgo]
    rw [hsym]
    exact Bool.eq_false_iff.mpr hkeep.2

/-- Universe reply holding one W-prefixed and one ordinary symbol. -/
def exItems : List CMCItem :=
  [⟨"WBTC", "Wrapped Bitcoin"⟩, ⟨"BTC", "Bitcoin"⟩]

/-- A fetch that answers only for `BTC`, with closes 1 then 2. -/
def exFetch : String → Option CGResponse :=
  fun s => if s = "BTC" then some ⟨"0", [1, 2]⟩ else none

/-- C10 witness: `WBTC` is filtered out of the universe, and the record the
scan loop stores for `BTC` does not start with `W`. -/
theorem w_symbols_never_stored_witness :
    (⟨"WBTC", "Wrapped Bitcoin"⟩ : CMCItem) ∉ get_top_symbols exItems ∧
      ((⟨"BTC", "Bitcoin", 100⟩ : ObsInsert) ∈ scan_loop exItems exFetch →
        strStartsWith "BTC" "W" = false) :=
  w_symbols_never_stored exItems exFetch ⟨"WBTC", "Wrapped Bitcoin"⟩
    ⟨"BTC", "Bitcoin", 100⟩ (by decide) (by decide)
